import Mathlib

/-!
Verification development for the release-it yarn-workspaces plugin
(src/index.js). The JavaScript source is shallowly embedded as
executable Lean definitions:

- the semantic-version library calls used by the source (semver.parse,
  semver.valid, semver.coerce) are modelled faithfully after node-semver
  on the fragment the source exercises;
- pure helpers (parseVersion, buildReplacementDepencencyVersion,
  resolveWorkspaces) are translated directly;
- stateful code (bump, publish, eachWorkspace, JSONFile) is embedded as
  explicit state passing, with disk writes, warnings, prompts and thrown
  errors reified in the result values.

JavaScript dynamic values are modelled where their dynamism matters
(JSValue for the workspaces configuration, Option String for possibly
null strings), and JavaScript falsiness of strings is modelled
explicitly.
-/

namespace RIYW

/-! ## Character and list utilities -/

/-- Whitespace characters recognised by the JavaScript regex class \s
(restricted to the ASCII range, which is all the source ever meets). -/
def isJsWsChar (c : Char) : Bool :=
  c = ' ' || c = '\t' || c = '\n' || c = '\r' || c = '\x0b' || c = '\x0c'

/-- JavaScript String.prototype.trim on the character list. -/
def trimChars (cs : List Char) : List Char :=
  ((cs.dropWhile isJsWsChar).reverse.dropWhile isJsWsChar).reverse

/-- Decimal digit character for a digit value; total with default '9'. -/
def digitChar : Nat → Char
  | 0 => '0'
  | 1 => '1'
  | 2 => '2'
  | 3 => '3'
  | 4 => '4'
  | 5 => '5'
  | 6 => '6'
  | 7 => '7'
  | 8 => '8'
  | _ => '9'

/-- Numeric value of a decimal digit character. -/
def digitVal (c : Char) : Nat := c.toNat - 48

/-- Value of a list of decimal digit characters, most significant first. -/
def natOfDigits (cs : List Char) : Nat :=
  cs.foldl (fun n c => n * 10 + digitVal c) 0

/-- Decimal digit characters of a natural number (fuel-driven so that it
is structurally recursive and evaluates in the kernel). -/
def natCharsAux : Nat → Nat → List Char
  | 0, _ => []
  | fuel + 1, n => if n < 10 then [digitChar n] else natCharsAux fuel (n / 10) ++ [digitChar (n % 10)]

/-- Decimal digit characters of a natural number. -/
def natChars (n : Nat) : List Char := natCharsAux (n + 1) n

/-- Decimal representation of an integer, as JavaScript prints integral
numbers. -/
def intChars : Int → List Char
  | .ofNat n => natChars n
  | .negSucc n => '-' :: natChars (n + 1)

/-- Splits a character list at the first occurrence of the pattern:
returns the part before the occurrence and the part after it.
Models the search done by JavaScript String.prototype.replace with a
string pattern (first occurrence only). -/
def firstOccurSplit (hay pat : List Char) : Option (List Char × List Char) :=
  match hay with
  | [] => if pat = [] then some ([], []) else none
  | c :: rest =>
    if pat.isPrefixOf (c :: rest) then some ([], (c :: rest).drop pat.length)
    else (firstOccurSplit rest pat).map (fun pr => (c :: pr.1, pr.2))

/-- JavaScript String.prototype.replace with a plain string pattern:
replaces only the first occurrence, returns the string unchanged when
the pattern does not occur. -/
def jsReplaceFirst (s pat rep : String) : String :=
  match firstOccurSplit s.data pat.data with
  | none => s
  | some pr => String.mk (pr.1 ++ rep.data ++ pr.2)

/-- Substring test (used to model the regex tests /one-time pass/ and
/private packages/, which are plain substring searches). -/
def containsSub (hay pat : String) : Bool :=
  (firstOccurSplit hay.data pat.data).isSome

/-- Model of String.prototype.startsWith. -/
def jsStartsWith (s pre : String) : Bool := pre.data.isPrefixOf s.data

/-! ## Model of the node-semver library (external collaborator)

Modelled from the spec: the source delegates to "the semantic-version
parsing library (parse/coerce/validate a version string)", which is not
part of this repository.  The definitions below reproduce node-semver's
documented strict grammar (semver.parse / semver.valid) and lenient
coercion (semver.coerce) on the fragment the plugin uses; build
metadata is validated but discarded, and the numeric-identifier
MAX_SAFE_INTEGER cutoff is ignored. -/

/-- A prerelease identifier: numeric identifiers are stored as numbers,
all others as strings, as node-semver does. -/
inductive PreId where
  | num (n : Nat)
  | str (s : String)
deriving DecidableEq

structure SemVer where
  major : Nat
  minor : Nat
  patch : Nat
  prerelease : List PreId
deriving DecidableEq

/-- Characters allowed in prerelease/build identifiers. -/
def isIdentChar (c : Char) : Bool := c.isAlpha || c.isDigit || c = '-'

/-- Parses a strict numeric identifier (0 | [1-9][0-9]*) and returns the
remaining input. -/
def parseNumericId (cs : List Char) : Option (Nat × List Char) :=
  let run := cs.takeWhile Char.isDigit
  let rest := cs.dropWhile Char.isDigit
  if run = [] then none
  else if run.head? = some '0' && run.length > 1 then none
  else some (natOfDigits run, rest)

/-- Parses one prerelease identifier: a nonempty run of identifier
characters; all-digit runs must have no leading zero and become numeric
identifiers. -/
def parsePreId (cs : List Char) : Option (PreId × List Char) :=
  let run := cs.takeWhile isIdentChar
  let rest := cs.dropWhile isIdentChar
  if run = [] then none
  else if run.all Char.isDigit then
    if run.head? = some '0' && run.length > 1 then none
    else some (.num (natOfDigits run), rest)
  else some (.str (String.mk run), rest)

/-- Parses a dot-separated list of prerelease identifiers (fuel-driven). -/
def parsePreList : Nat → List Char → Option (List PreId × List Char)
  | 0, _ => none
  | fuel + 1, cs =>
    match parsePreId cs with
    | none => none
    | some (id, rest) =>
      match rest with
      | '.' :: more =>
        match parsePreList fuel more with
        | none => none
        | some (ids, rest2) => some (id :: ids, rest2)
      | _ => some ([id], rest)

/-- Parses one build identifier ([0-9A-Za-z-]+, leading zeros allowed);
the identifier itself is discarded. -/
def parseBuildId (cs : List Char) : Option (List Char) :=
  let run := cs.takeWhile isIdentChar
  let rest := cs.dropWhile isIdentChar
  if run = [] then none else some rest

/-- Parses a dot-separated list of build identifiers (fuel-driven). -/
def parseBuildList : Nat → List Char → Option (List Char)
  | 0, _ => none
  | fuel + 1, cs =>
    match parseBuildId cs with
    | none => none
    | some rest =>
      match rest with
      | '.' :: more => parseBuildList fuel more
      | _ => some rest

/-- Strict semver parse on a trimmed character list: optional leading v,
major.minor.patch, optional -prerelease, optional +build, end of input. -/
def semverParseChars (cs0 : List Char) : Option SemVer := do
  let cs := match cs0 with
    | 'v' :: rest => rest
    | _ => cs0
  let (maj, r1) ← parseNumericId cs
  let r1 ← match r1 with
    | '.' :: r => some r
    | _ => none
  let (mino, r2) ← parseNumericId r1
  let r2 ← match r2 with
    | '.' :: r => some r
    | _ => none
  let (pat, r3) ← parseNumericId r2
  let (pre, r4) ← match r3 with
    | '-' :: rest => parsePreList (rest.length + 1) rest
    | _ => some (([] : List PreId), r3)
  let r5 ← match r4 with
    | '+' :: rest => parseBuildList (rest.length + 1) rest
    | _ => some r4
  match r5 with
  | [] => some ⟨maj, mino, pat, pre⟩
  | _ => none

/-- Model of semver.parse on a string: null (none) when the string is
not a valid semantic version.  semver.valid is truthiness of this. -/
def semverParse (s : String) : Option SemVer :=
  if s.length > 256 then none
  else semverParseChars (trimChars s.data)

/-- The plain M.m.p rendering of a version triple (what toString of a
coerced SemVer produces: coercion never yields a prerelease). -/
def tripleChars (ma mi pa : Nat) : List Char :=
  natChars ma ++ '.' :: natChars mi ++ '.' :: natChars pa

/-- Attempts the coercion regex at a position that starts with a digit
preceded by a non-digit (or start of input): a run of at most 16 digits,
optionally .digits and .digits again, each also capped at 16 digits,
then a non-digit or end of input (automatic after a maximal run). -/
def coerceTriple (cs : List Char) : Option (Nat × Nat × Nat) :=
  let run := cs.takeWhile Char.isDigit
  let rest := cs.dropWhile Char.isDigit
  if run.length > 16 then none
  else
    let major := natOfDigits run
    match rest with
    | '.' :: r2 =>
      let run2 := r2.takeWhile Char.isDigit
      let rest2 := r2.dropWhile Char.isDigit
      if run2 = [] || run2.length > 16 then some (major, 0, 0)
      else
        let minor := natOfDigits run2
        match rest2 with
        | '.' :: r3 =>
          let run3 := r3.takeWhile Char.isDigit
          if run3 = [] || run3.length > 16 then some (major, minor, 0)
          else some (major, minor, natOfDigits run3)
        | _ => some (major, minor, 0)
    | _ => some (major, 0, 0)

/-- Left-to-right scan of the coercion regex; prev records whether the
previous character was a digit (the (start | non-digit) guard). -/
def coerceScan : Bool → List Char → Option (Nat × Nat × Nat)
  | _, [] => none
  | prev, c :: rest =>
    if c.isDigit && !prev then
      match coerceTriple (c :: rest) with
      | some r => some r
      | none => coerceScan true rest
    else coerceScan c.isDigit rest

/-- Model of semver.coerce: extracts the first version-number-looking
substring and completes it to major.minor.patch; null (none) when no
digits occur. -/
def coerce (s : String) : Option SemVer :=
  (coerceScan false s.data).map (fun t => ⟨t.1, t.2.1, t.2.2, []⟩)

/-! ## JavaScript isNaN on prerelease identifiers

parseVersion applies the global isNaN to parsed.prerelease[0], which is
either a number (never NaN for semver numeric identifiers) or an
identifier string drawn from [0-9A-Za-z-].  isNaN(s) is false exactly
when Number(s) parses, which for that character set means a decimal
integer with optional exponent, a 0x/0o/0b radix literal, or Infinity,
each optionally negated (sign only for decimal and Infinity). -/

def isHexDigitChar (c : Char) : Bool :=
  c.isDigit || ('a' ≤ c && c ≤ 'f') || ('A' ≤ c && c ≤ 'F')

/-- Decimal numeric literal over the identifier character set: digits,
optionally followed by an exponent marker e/E, an optional minus, and
more digits. -/
def decNumericChars (cs : List Char) : Bool :=
  let mant := cs.takeWhile (fun c => c ≠ 'e' && c ≠ 'E')
  let rest := cs.dropWhile (fun c => c ≠ 'e' && c ≠ 'E')
  (!mant.isEmpty && mant.all Char.isDigit) &&
    (match rest with
     | [] => true
     | _ :: expPart =>
       let ep := match expPart with
         | '-' :: r => r
         | r => r
       !ep.isEmpty && ep.all Char.isDigit)

/-- Radix (0x / 0o / 0b) numeric literal over the identifier charset. -/
def radixNumericChars (cs : List Char) : Bool :=
  match cs with
  | '0' :: x :: rest =>
    if x = 'x' || x = 'X' then !rest.isEmpty && rest.all isHexDigitChar
    else if x = 'o' || x = 'O' then !rest.isEmpty && rest.all (fun c => '0' ≤ c && c ≤ '7')
    else if x = 'b' || x = 'B' then !rest.isEmpty && rest.all (fun c => c = '0' || c = '1')
    else false
  | _ => false

/-- Number(s) parses (is not NaN) for an identifier-charset string. -/
def jsNumericString (cs : List Char) : Bool :=
  match cs with
  | '-' :: rest => rest = "Infinity".data || decNumericChars rest
  | _ => cs = "Infinity".data || decNumericChars cs || radixNumericChars cs

/-- isNaN applied to a prerelease identifier as node-semver stores it. -/
def isNaNPreId : PreId → Bool
  | .num _ => false
  | .str s => !(jsNumericString s.data)

/-- The string JavaScript would produce for a prerelease identifier
(numeric identifiers print in decimal). -/
def preIdString : PreId → String
  | .num n => String.mk (natChars n)
  | .str s => s

/-! ## parseVersion (src/index.js lines 33-47) -/

/-- Result shape of parseVersion: version (null for empty input),
isPreRelease, preReleaseId (null unless a non-numeric first prerelease
identifier exists). -/
structure VersionInfo where
  version : Option String
  isPreRelease : Bool
  preReleaseId : Option String
deriving DecidableEq

/-- JavaScript truthiness of a possibly-null string. -/
def jsTruthy : Option String → Bool
  | none => false
  | some s => !s.isEmpty

/-- parseVersion.  none models the TypeError the source raises when the
input is neither empty, valid, nor coercible (semver.parse(null) is
null and parsed.prerelease then throws). -/
def parseVersion (raw : String) : Option VersionInfo :=
  if raw = "" then some ⟨none, false, none⟩
  else
    let parsed : Option (Option String × SemVer) :=
      match semverParse raw with
      | some sv => some (some raw, sv)
      | none =>
        match coerce raw with
        | some sv => some (some (String.mk (tripleChars sv.major sv.minor sv.patch)), sv)
        | none => none
    parsed.map (fun vp =>
      let isPre := !vp.2.prerelease.isEmpty
      let preId : Option String :=
        match vp.2.prerelease.head? with
        | some id => if isPre && isNaNPreId id then some (preIdString id) else none
        | none => none
      ⟨vp.1, isPre, preId⟩)

/-! ## Distribution-tag resolution (src/index.js lines 148-154)

bump reads distTag from the options; when that is falsy it evaluates
  distTag = this.options.distTag || isPreRelease ? preReleaseId : DEFAULT_TAG
which by JavaScript precedence is
  (this.options.distTag || isPreRelease) ? preReleaseId : DEFAULT_TAG. -/

def DEFAULT_TAG : String := "latest"

/-- The resolved distribution tag stored into the context by bump.
Outer none models the parseVersion TypeError propagating; the inner
Option String is the tag itself, which the source can leave null. -/
def resolveDistTag (version : String) (optionsDistTag : Option String) : Option (Option String) :=
  if jsTruthy optionsDistTag then some optionsDistTag
  else
    (parseVersion version).map (fun info =>
      if jsTruthy optionsDistTag || info.isPreRelease then info.preReleaseId
      else some DEFAULT_TAG)

/-! ## buildReplacementDepencencyVersion (src/index.js lines 49-63) -/

def buildReplacementDepencencyVersion (existingVersion newVersion : String) : String :=
  match semverParse existingVersion with
  | some _ => newVersion
  | none =>
    match coerce existingVersion with
    | some sv =>
      jsReplaceFirst existingVersion (String.mk (tripleChars sv.major sv.minor sv.patch)) newVersion
    | none => newVersion

/-! ## resolveWorkspaces (src/index.js lines 21-31) -/

/-- JavaScript values as far as the workspaces configuration needs:
Array.isArray distinguishes arr; typeof x === "object" holds for arr,
obj and null; the source excludes null explicitly. -/
inductive JSValue where
  | undefined
  | null
  | bool (b : Bool)
  | num (n : Int)
  | str (s : String)
  | arr (elems : List JSValue)
  | obj (fields : List (String × JSValue))

/-- Property access on an object: undefined when the key is absent. -/
def jsField (fields : List (String × JSValue)) (key : String) : JSValue :=
  match fields.find? (fun p => p.1 == key) with
  | some p => p.2
  | none => .undefined

/-- The thrown message (paraphrased without punctuation the embedding
cannot carry; the original text names yarn workspaces and the missing
workspaces property). -/
def workspacesErrorMessage : String :=
  "This package does not use yarn workspaces (package.json does not contain a workspaces property)"

def resolveWorkspaces : JSValue → Except String JSValue
  | .arr xs => .ok (.arr xs)
  | .obj fs => .ok (jsField fs "packages")
  | _ => .error workspacesErrorMessage

/-- Whether the call threw. -/
def resolveThrew : Except String JSValue → Bool
  | .error _ => true
  | .ok _ => false

/-- Whether the configuration value is an array or a non-null object
(the two shapes the source accepts without throwing). -/
def isArrOrObj : JSValue → Bool
  | .arr _ => true
  | .obj _ => true
  | _ => false

/-! ## bump over the discovered workspaces (src/index.js lines 164-234)

Each workspace descriptor owns a manifest; bump mutates the version and
the four dependency maps in memory and persists each manifest with
write().  The model records the persisted manifests and the warnings. -/

/-- The in-memory manifest fields bump touches.  A dependency map is
Option-al (absent maps are skipped) and kept as an ordered association
list as JSON.parse produces it. -/
structure Pkg where
  name : String
  version : String
  dependencies : Option (List (String × String))
  devDependencies : Option (List (String × String))
  optionalDependencies : Option (List (String × String))
  peerDependencies : Option (List (String × String))
deriving DecidableEq

/-- _updateDependencies: rewrites the specifier of every dependency
whose name matches a known workspace name. -/
def updateDependencies (workspaceNames : List String) (deps : Option (List (String × String))) (newVersion : String) : Option (List (String × String)) :=
  match deps with
  | none => none
  | some ds =>
    some (ds.map (fun p =>
      if workspaceNames.contains p.1 then (p.1, buildReplacementDepencencyVersion p.2 newVersion)
      else p))

/-- The per-workspace mutation inside the bump task. -/
def bumpPkg (workspaceNames : List String) (version : String) (p : Pkg) : Pkg :=
  { p with
    version := version
    dependencies := updateDependencies workspaceNames p.dependencies version
    devDependencies := updateDependencies workspaceNames p.devDependencies version
    optionalDependencies := updateDependencies workspaceNames p.optionalDependencies version
    peerDependencies := updateDependencies workspaceNames p.peerDependencies version }

def warnAlreadyAt (version : String) : String :=
  "Did not update version in package.json, etc. (already at " ++ version ++ ")."

structure BumpResult where
  written : List Pkg
  warnings : List String
deriving DecidableEq

/-- The task bump runs: in dry-run it only reports; otherwise for every
workspace it warns when the version is already current, sets the
version, rewrites the four dependency maps against all workspace names,
and persists the manifest (recorded in written, in iteration order). -/
def bumpTask (isDryRun : Bool) (version : String) (workspaces : List Pkg) : BumpResult :=
  if isDryRun then ⟨[], []⟩
  else
    let names := workspaces.map Pkg.name
    { written := workspaces.map (bumpPkg names version)
      warnings := workspaces.filterMap (fun p =>
        if p.version == version then some (warnAlreadyAt version) else none) }

/-! ## publish (src/index.js lines 291-341)

The external npm publish command and the two interactive prompts are
the environment; the recursion-with-retry of the source is fuel-driven
(the source recurses once per prompt answer, so any fuel larger than
the number of prompt answers consumed is enough). -/

structure WorkspaceInfo where
  name : String
  isPrivate : Bool
  isReleased : Bool
deriving DecidableEq

/-- The environment publish interacts with: the external command (as a
function of tag, access and otp arguments) and the two prompt oracles,
indexed by how many prompts of that kind were answered so far. -/
structure PublishEnv where
  execPublish : String → Option String → Option String → Except String Unit
  otpAnswers : Nat → String
  publishAsPublicAnswers : Nat → Bool

/-- Mutable state threaded through one publish call tree: the shared
otp holder, the workspace released flag, emitted warnings, and prompt
counters. -/
structure PublishState where
  otp : Option String
  isReleased : Bool
  warnings : List String
  otpPromptCount : Nat
  publicPromptCount : Nat
deriving DecidableEq

inductive PublishResult where
  | ok
  | thrown (err : String)
  | fuelOut
deriving DecidableEq

/-- One publish call, faithful to the source control flow:
skip private; run the command; on success set isReleased; on failure
either OTP-prompt and retry, or (scoped name and a private-packages
error) prompt for publishing as public and retry on yes — on no the
source warns and then still falls through to throw err; any other
failure throws. -/
def publish (env : PublishEnv) : Nat → String → WorkspaceInfo → Option String → PublishState → PublishState × PublishResult
  | 0, _, _, _, st => (st, .fuelOut)
  | fuel + 1, tag, ws, access, st =>
    if ws.isPrivate then
      ({ st with warnings := st.warnings ++ [ws.name ++ ": Skip publish (package is private)"] }, .ok)
    else
      match env.execPublish tag access st.otp with
      | .ok _ => ({ st with isReleased := true }, .ok)
      | .error err =>
        if containsSub err "one-time pass" then
          let st :=
            if st.otp ≠ none then
              { st with warnings := st.warnings ++ ["The provided OTP is incorrect or has expired."] }
            else st
          let newOtp := env.otpAnswers st.otpPromptCount
          let st := { st with otp := some newOtp, otpPromptCount := st.otpPromptCount + 1 }
          publish env fuel tag ws access st
        else if jsStartsWith ws.name "@" && containsSub err "private packages" then
          let answer := env.publishAsPublicAnswers st.publicPromptCount
          let st := { st with publicPromptCount := st.publicPromptCount + 1 }
          if answer then publish env fuel tag ws (some "public") st
          else
            ({ st with warnings := st.warnings ++ [ws.name ++ " was not published."] }, .thrown err)
        else (st, .thrown err)

/-! ## eachWorkspace (src/index.js lines 343-354)

The process working directory is the shared mutable resource; the model
threads it explicitly and records its value at each action invocation.
The action sees the working directory it runs in and may fail. -/

structure Workspace where
  name : String
  root : String
deriving DecidableEq

/-- Iterates the workspaces: chdir to the workspace root, run the
action, and in a finally block chdir back to the run root — also when
the action fails, in which case iteration stops and the error is
returned (already restored).  Returns the working directories the
actions observed, the final working directory, and the propagated
error, if any. -/
def eachWorkspaceGo (rootDir : String) (action : Workspace → String → Except String Unit) : List Workspace → String → List String × String × Option String
  | [], cwd => ([], cwd, none)
  | w :: rest, _cwd =>
    let cwdIn := w.root
    match action w cwdIn with
    | .ok _ =>
      let next := eachWorkspaceGo rootDir action rest rootDir
      (cwdIn :: next.1, next.2)
    | .error e => ([cwdIn], rootDir, some e)

/-- eachWorkspace is always entered with the working directory at the
run root (release() runs from it). -/
def eachWorkspace (rootDir : String) (action : Workspace → String → Except String Unit) (workspaces : List Workspace) : List String × String × Option String :=
  eachWorkspaceGo rootDir action workspaces rootDir

/-! ## JSONFile (src/index.js lines 65-83)

The constructor reads the file, JSON.parses it, and detects the
dominant newline sequence (detect-newline), the indent amount
(detect-indent) and the trailing whitespace run (/\s+$/).  write()
re-serialises with JSON.stringify(pkg, null, indent), rewrites every
newline to the stored line-ending sequence, and appends the stored
trailing whitespace.

JSON values are a mutual inductive family (instead of one nested
inductive) so that the serialiser is structurally recursive and
kernel-evaluable.  JSON.parse itself is external byte-level I/O; the
constructor model therefore takes the parsed value alongside the raw
contents, with the side condition (holding at every use below) that the
value is the JSON.parse of the contents. -/

mutual
inductive JVal where
  | null
  | bool (b : Bool)
  | num (n : Int)
  | str (s : String)
  | arr (items : JItems)
  | obj (fields : JFields)

inductive JItems where
  | nil
  | cons (head : JVal) (tail : JItems)

inductive JFields where
  | nil
  | cons (key : String) (val : JVal) (tail : JFields)
end

/-- Hexadecimal digit character (lowercase, as JSON.stringify emits). -/
def hexDigitChar (n : Nat) : Char :=
  if n < 10 then digitChar n
  else if n = 10 then 'a'
  else if n = 11 then 'b'
  else if n = 12 then 'c'
  else if n = 13 then 'd'
  else if n = 14 then 'e'
  else 'f'

/-- JSON.stringify escaping of one character inside a string literal. -/
def escapeChar (c : Char) : List Char :=
  if c = '"' then ['\\', '"']
  else if c = '\\' then ['\\', '\\']
  else if c = '\x08' then ['\\', 'b']
  else if c = '\x0c' then ['\\', 'f']
  else if c = '\n' then ['\\', 'n']
  else if c = '\r' then ['\\', 'r']
  else if c = '\t' then ['\\', 't']
  else if c.toNat < 32 then
    ['\\', 'u', '0', '0', hexDigitChar (c.toNat / 16), hexDigitChar (c.toNat % 16)]
  else [c]

/-- A JSON string literal with quotes and escapes. -/
def escapeString (s : String) : List Char :=
  '"' :: s.data.flatMap escapeChar ++ ['"']

/-- Indentation of a given width in spaces (JSON.stringify with a
numeric indent argument always indents with spaces). -/
def pad (n : Nat) : List Char := List.replicate n ' '

/-- Appends the separating comma to the last line of a block. -/
def lastLineComma : List (List Char) → List (List Char)
  | [] => []
  | [l] => [l ++ [',']]
  | l :: ls => l :: lastLineComma ls

/-- Joins the per-element blocks of a container: every block except the
last gets a trailing comma on its last line (join with ",\n"). -/
def blockJoin : List (List (List Char)) → List (List Char)
  | [] => []
  | [b] => b
  | b :: bs => lastLineComma b ++ blockJoin bs

mutual
/-- Lines of the multiline (indent > 0) JSON.stringify rendering of a
value at nesting depth d: the first line carries no leading indent (the
caller provides it), the remaining lines carry their full indent. -/
def JVal.lines (w d : Nat) : JVal → List Char × List (List Char)
  | .null => ("null".data, [])
  | .bool true => ("true".data, [])
  | .bool false => ("false".data, [])
  | .num n => (intChars n, [])
  | .str s => (escapeString s, [])
  | .arr .nil => ("[]".data, [])
  | .arr (.cons e es) =>
      (['['], blockJoin (JItems.blocks w (d + 1) (.cons e es)) ++ [pad (d * w) ++ [']']])
  | .obj .nil => (['\x7b', '\x7d'], [])
  | .obj (.cons k v fs) =>
      (['\x7b'], blockJoin (JFields.blocks w (d + 1) (.cons k v fs)) ++ [pad (d * w) ++ ['\x7d']])

/-- Per-element blocks of an array body at depth d: each element's
first line is indented to depth d. -/
def JItems.blocks (w d : Nat) : JItems → List (List (List Char))
  | .nil => []
  | .cons e es =>
      let fr := JVal.lines w d e
      ((pad (d * w) ++ fr.1) :: fr.2) :: JItems.blocks w d es

/-- Per-member blocks of an object body at depth d: each member's first
line is indent, quoted key, colon, space, then the value's first line. -/
def JFields.blocks (w d : Nat) : JFields → List (List (List Char))
  | .nil => []
  | .cons k v fs =>
      let fr := JVal.lines w d v
      ((pad (d * w) ++ escapeString k ++ ':' :: ' ' :: fr.1) :: fr.2) :: JFields.blocks w d fs
end

mutual
/-- Compact (indent 0) JSON.stringify rendering. -/
def JVal.compact : JVal → List Char
  | .null => "null".data
  | .bool true => "true".data
  | .bool false => "false".data
  | .num n => intChars n
  | .str s => escapeString s
  | .arr its => '[' :: JItems.compactList its ++ [']']
  | .obj fs => '\x7b' :: JFields.compactList fs ++ ['\x7d']

def JItems.compactList : JItems → List Char
  | .nil => []
  | .cons e .nil => JVal.compact e
  | .cons e (.cons e2 es) => JVal.compact e ++ ',' :: JItems.compactList (.cons e2 es)

def JFields.compactList : JFields → List Char
  | .nil => []
  | .cons k v .nil => escapeString k ++ ':' :: JVal.compact v
  | .cons k v (.cons k2 v2 fs) =>
      escapeString k ++ ':' :: JVal.compact v ++ ',' :: JFields.compactList (.cons k2 v2 fs)
end

/-- Joins first line and remaining lines with the newline character
that JSON.stringify itself emits. -/
def joinLines (p : List Char × List (List Char)) : List Char :=
  p.1 ++ p.2.flatMap (fun l => '\n' :: l)

/-- JSON.stringify(pkg, null, indent): compact when the indent is 0,
multiline otherwise; a numeric indent is capped at 10. -/
def stringifyTop (indent : Nat) (v : JVal) : String :=
  if indent = 0 then String.mk (JVal.compact v)
  else String.mk (joinLines (JVal.lines (min indent 10) 0 v))

/-- Global replacement of the single character newline pattern /\n/g. -/
def replaceNewlinesChars (cs nl : List Char) : List Char :=
  cs.flatMap (fun c => if c = '\n' then nl else [c])

/-! ### Format detection (external collaborators, at their interface)

Modelled from the spec: detect-newline and detect-indent are external
libraries; the spec specifies them as detecting "the dominant newline
sequence used in the text" and "the leading-whitespace indent width of
the first indented line", and the trailing run is the source's own
/\s+$/ match. -/

/-- Counts of \r\n and of bare \n occurrences, as the /\r?\n/g matches
of detect-newline classify them. -/
def nlCounts : List Char → Nat × Nat
  | [] => (0, 0)
  | [c] => if c = '\n' then (0, 1) else (0, 0)
  | c :: c2 :: rest =>
    if c = '\r' && c2 = '\n' then
      let p := nlCounts rest
      (p.1 + 1, p.2)
    else if c = '\n' then
      let p := nlCounts (c2 :: rest)
      (p.1, p.2 + 1)
    else nlCounts (c2 :: rest)

/-- Modelled from the spec: detect-newline returns the dominant newline
sequence, undefined (none) when the text has no newline. -/
def detectNewlineModel (s : String) : Option String :=
  let p := nlCounts s.data
  if p.1 + p.2 = 0 then none
  else if p.1 > p.2 then some "\r\n"
  else some "\n"

/-- Splits on the \n character; every piece excludes the \n itself. -/
def splitNL : List Char → List (List Char)
  | [] => [[]]
  | c :: rest =>
    if c = '\n' then [] :: splitNL rest
    else
      match splitNL rest with
      | [] => [[c]]
      | l :: ls => (c :: l) :: ls

/-- Indentation characters recognised by detect-indent. -/
def isIndentChar (c : Char) : Bool := c = ' ' || c = '\t'

def leadingIndentCount (l : List Char) : Nat :=
  (l.takeWhile isIndentChar).length

def firstIndentAmount : List (List Char) → Nat
  | [] => 0
  | l :: ls =>
    let k := leadingIndentCount l
    if k > 0 then k else firstIndentAmount ls

/-- Modelled from the spec: detect-indent .amount is the
leading-whitespace indent width of the first indented line (0 when no
line is indented).  A tab-indented file reports its count of tabs. -/
def detectIndentModel (s : String) : Nat :=
  firstIndentAmount (splitNL s.data)

/-- The /\s+$/ match of the constructor: the maximal run of whitespace
characters at end of input (empty when the text ends with
non-whitespace). -/
def detectTrailingWs (s : String) : String :=
  String.mk ((s.data.reverse.takeWhile isJsWsChar).reverse)

/-- The formatting state the constructor stores. -/
structure JSONFileModel where
  pkg : JVal
  lineEndings : Option String
  indent : Nat
  trailingWhitespace : String

/-- The constructor, with JSON.parse abstracted: contents are the file
bytes, pkg the parsed value tree (side condition: pkg is the JSON.parse
of contents). -/
def JSONFile.load (contents : String) (pkg : JVal) : JSONFileModel :=
  { pkg := pkg
    lineEndings := detectNewlineModel contents
    indent := detectIndentModel contents
    trailingWhitespace := detectTrailingWs contents }

/-- write(): stringify with the stored indent, rewrite every \n to the
stored line endings (when detect-newline returned undefined the
JavaScript replacement string is the text "undefined", faithfully kept;
with no newline in the serialisation the replace is a no-op), append
the stored trailing whitespace. -/
def JSONFile.write (f : JSONFileModel) : String :=
  let nl := match f.lineEndings with
    | some s => s
    | none => "undefined"
  String.mk (replaceNewlinesChars (stringifyTop f.indent f.pkg).data nl.data) ++ f.trailingWhitespace

/-- k repetitions of a character list. -/
def repChars (l : List Char) : Nat → List Char
  | 0 => []
  | k + 1 => l ++ repChars l k

/-- A manifest file in canonical JSON.stringify form with space indent
width w, line-ending sequence nl, and trailing whitespace of k
repetitions of nl.  This is exactly what write() itself produces from
that formatting state, and is the canonical byte form the round-trip
claim quantifies over. -/
def renderManifest (p : JVal) (w : Nat) (nl : String) (k : Nat) : String :=
  String.mk (replaceNewlinesChars (stringifyTop w p).data nl.data ++ repChars nl.data k)

/-- The round-trip claim needs a manifest whose top value actually
produces an indented line: a nonempty object or array. -/
def topNonempty : JVal → Bool
  | .arr (.cons _ _) => true
  | .obj (.cons _ _ _) => true
  | _ => false

/-- A serialised line never contains a raw newline or carriage return
(string content is escaped); the line-splitting and newline-counting
arguments below rest on this. -/
abbrev SafeL (l : List Char) : Prop := ∀ c ∈ l, c ≠ '\n' ∧ c ≠ '\r'

/-- All lines of a block are safe. -/
abbrev SafeB (b : List (List Char)) : Prop := ∀ l ∈ b, SafeL l

/-! # Claims -/

/-! ## Serialisation facts feeding the C3 round-trip -/

theorem string_mk_append (a b : List Char) : String.mk a ++ String.mk b = String.mk (a ++ b) := rfl

theorem SafeL_append (a b : List Char) (ha : SafeL a) (hb : SafeL b) : SafeL (a ++ b) := by
  intro c hc
  rcases List.mem_append.1 hc with h | h
  · exact ha c h
  · exact hb c h

theorem digitChar_mem (n : Nat) : digitChar n ∈ "0123456789".data := by
  rcases n with _|_|_|_|_|_|_|_|_|m
  case succ.succ.succ.succ.succ.succ.succ.succ.succ =>
    exact (by decide : ('9' : Char) ∈ "0123456789".data)
  all_goals decide

theorem mem_digits_props :
    ∀ c ∈ "0123456789".data, (c ≠ '\n' ∧ c ≠ '\r') ∧ isIndentChar c = false ∧ isJsWsChar c = false := by
  decide

theorem natCharsAux_subset (fuel : Nat) : ∀ n c, c ∈ natCharsAux fuel n → c ∈ "0123456789".data := by
  induction fuel with
  | zero => intro n c hc; simp [natCharsAux] at hc
  | succ f ih =>
    intro n c hc
    unfold natCharsAux at hc
    split at hc
    · rw [List.mem_singleton] at hc
      exact hc ▸ digitChar_mem n
    · rcases List.mem_append.1 hc with h | h
      · exact ih _ c h
      · rw [List.mem_singleton] at h
        exact h ▸ digitChar_mem (n % 10)

theorem natCharsAux_ne_nil (fuel n : Nat) : natCharsAux (fuel + 1) n ≠ [] := by
  unfold natCharsAux
  split
  · simp
  · simp

theorem natChars_shape (n : Nat) : ∃ c t, natChars n = c :: t ∧ c ∈ "0123456789".data := by
  cases h : natChars n with
  | nil => exact absurd h (natCharsAux_ne_nil n n)
  | cons c t =>
    refine ⟨c, t, rfl, natCharsAux_subset (n + 1) n c ?_⟩
    rw [show natCharsAux (n + 1) n = natChars n from rfl, h]
    exact List.mem_cons_self c t

theorem intChars_safe (n : Int) : SafeL (intChars n) := by
  cases n with
  | ofNat m =>
    intro c hc
    exact (mem_digits_props c (natCharsAux_subset (m + 1) m c hc)).1
  | negSucc m =>
    intro c hc
    rcases List.mem_cons.1 hc with h | h
    · subst h; exact ⟨by decide, by decide⟩
    · exact (mem_digits_props c (natCharsAux_subset (m + 1 + 1) (m + 1) c h)).1

theorem intChars_shape (n : Int) :
    ∃ c t, intChars n = c :: t ∧ isIndentChar c = false ∧ isJsWsChar c = false := by
  cases n with
  | ofNat m =>
    obtain ⟨c, t, h, hmem⟩ := natChars_shape m
    exact ⟨c, t, h, (mem_digits_props c hmem).2.1, (mem_digits_props c hmem).2.2⟩
  | negSucc m => exact ⟨'-', natChars (m + 1), rfl, by decide, by decide⟩

theorem hexDigitChar_safe (n : Nat) : hexDigitChar n ≠ '\n' ∧ hexDigitChar n ≠ '\r' := by
  unfold hexDigitChar
  repeat' split
  · exact (mem_digits_props _ (digitChar_mem n)).1
  all_goals decide

theorem escapeChar_safe (c c' : Char) (h : c' ∈ escapeChar c) : c' ≠ '\n' ∧ c' ≠ '\r' := by
  unfold escapeChar at h
  by_cases h1 : c = '"'
  · rw [if_pos h1] at h
    simp only [List.mem_cons, List.mem_singleton, List.not_mem_nil, or_false] at h
    rcases h with rfl | rfl <;> exact ⟨by decide, by decide⟩
  rw [if_neg h1] at h
  by_cases h2 : c = '\\'
  · rw [if_pos h2] at h
    simp only [List.mem_cons, List.mem_singleton, List.not_mem_nil, or_false] at h
    rcases h with rfl | rfl <;> exact ⟨by decide, by decide⟩
  rw [if_neg h2] at h
  by_cases h3 : c = '\x08'
  · rw [if_pos h3] at h
    simp only [List.mem_cons, List.mem_singleton, List.not_mem_nil, or_false] at h
    rcases h with rfl | rfl <;> exact ⟨by decide, by decide⟩
  rw [if_neg h3] at h
  by_cases h4 : c = '\x0c'
  · rw [if_pos h4] at h
    simp only [List.mem_cons, List.mem_singleton, List.not_mem_nil, or_false] at h
    rcases h with rfl | rfl <;> exact ⟨by decide, by decide⟩
  rw [if_neg h4] at h
  by_cases h5 : c = '\n'
  · rw [if_pos h5] at h
    simp only [List.mem_cons, List.mem_singleton, List.not_mem_nil, or_false] at h
    rcases h with rfl | rfl <;> exact ⟨by decide, by decide⟩
  rw [if_neg h5] at h
  by_cases h6 : c = '\r'
  · rw [if_pos h6] at h
    simp only [List.mem_cons, List.mem_singleton, List.not_mem_nil, or_false] at h
    rcases h with rfl | rfl <;> exact ⟨by decide, by decide⟩
  rw [if_neg h6] at h
  by_cases h7 : c = '\t'
  · rw [if_pos h7] at h
    simp only [List.mem_cons, List.mem_singleton, List.not_mem_nil, or_false] at h
    rcases h with rfl | rfl <;> exact ⟨by decide, by decide⟩
  rw [if_neg h7] at h
  by_cases h8 : c.toNat < 32
  · rw [if_pos h8] at h
    simp only [List.mem_cons, List.mem_singleton, List.not_mem_nil, or_false] at h
    rcases h with rfl | rfl | rfl | rfl | rfl | rfl
    · exact ⟨by decide, by decide⟩
    · exact ⟨by decide, by decide⟩
    · exact ⟨by decide, by decide⟩
    · exact ⟨by decide, by decide⟩
    · exact hexDigitChar_safe _
    · exact hexDigitChar_safe _
  · rw [if_neg h8] at h
    rw [List.mem_singleton] at h
    subst h
    exact ⟨h5, h6⟩

theorem escapeString_safe (s : String) : SafeL (escapeString s) := by
  intro c hc
  unfold escapeString at hc
  rcases List.mem_cons.1 hc with h | h
  · subst h; exact ⟨by decide, by decide⟩
  · rcases List.mem_append.1 h with h | h
    · obtain ⟨c', _, hc'⟩ := List.mem_flatMap.1 h
      exact escapeChar_safe c' c hc'
    · rw [List.mem_singleton] at h
      subst h; exact ⟨by decide, by decide⟩

theorem pad_safe (n : Nat) : SafeL (pad n) := by
  intro c hc
  rw [List.eq_of_mem_replicate hc]
  exact ⟨by decide, by decide⟩

theorem lastLineComma_mem (b : List (List Char)) (l : List Char) (h : l ∈ lastLineComma b) :
    l ∈ b ∨ ∃ l', l' ∈ b ∧ l = l' ++ [','] := by
  induction b with
  | nil => simp [lastLineComma] at h
  | cons l0 ls ih =>
    cases ls with
    | nil =>
      rw [show lastLineComma [l0] = [l0 ++ [',']] from rfl, List.mem_singleton] at h
      exact Or.inr ⟨l0, List.mem_cons_self l0 [], h⟩
    | cons l1 ls' =>
      rw [show lastLineComma (l0 :: l1 :: ls') = l0 :: lastLineComma (l1 :: ls') from rfl] at h
      rcases List.mem_cons.1 h with h | h
      · exact Or.inl (h ▸ List.mem_cons_self l0 (l1 :: ls'))
      · rcases ih h with h | ⟨l', hl', he⟩
        · exact Or.inl (List.mem_cons_of_mem l0 h)
        · exact Or.inr ⟨l', List.mem_cons_of_mem l0 hl', he⟩

theorem blockJoin_mem (Bs : List (List (List Char))) (l : List Char) (h : l ∈ blockJoin Bs) :
    ∃ b, b ∈ Bs ∧ (l ∈ b ∨ ∃ l', l' ∈ b ∧ l = l' ++ [',']) := by
  induction Bs with
  | nil => simp [blockJoin] at h
  | cons b bs ih =>
    cases bs with
    | nil =>
      rw [show blockJoin [b] = b from rfl] at h
      exact ⟨b, List.mem_cons_self b [], Or.inl h⟩
    | cons b2 bs' =>
      rw [show blockJoin (b :: b2 :: bs') = lastLineComma b ++ blockJoin (b2 :: bs') from rfl] at h
      rcases List.mem_append.1 h with h | h
      · exact ⟨b, List.mem_cons_self b (b2 :: bs'), lastLineComma_mem b l h⟩
      · obtain ⟨b', hb', hl⟩ := ih h
        exact ⟨b', List.mem_cons_of_mem b hb', hl⟩

theorem SafeB_blockJoin (Bs : List (List (List Char))) (h : ∀ b ∈ Bs, SafeB b) :
    SafeB (blockJoin Bs) := by
  intro l hl
  obtain ⟨b, hb, hcase⟩ := blockJoin_mem Bs l hl
  rcases hcase with hmem | ⟨l', hl', rfl⟩
  · exact h b hb l hmem
  · exact SafeL_append l' [','] (h b hb l' hl') (by intro c hc; rw [List.mem_singleton] at hc; subst hc; exact ⟨by decide, by decide⟩)

mutual
theorem linesSafeV (w d : Nat) : (v : JVal) → SafeL (JVal.lines w d v).1 ∧ SafeB (JVal.lines w d v).2
  | .null => ⟨(by decide : SafeL "null".data), fun l hl => absurd hl (List.not_mem_nil l)⟩
  | .bool true => ⟨(by decide : SafeL "true".data), fun l hl => absurd hl (List.not_mem_nil l)⟩
  | .bool false => ⟨(by decide : SafeL "false".data), fun l hl => absurd hl (List.not_mem_nil l)⟩
  | .num n => ⟨intChars_safe n, fun l hl => absurd hl (List.not_mem_nil l)⟩
  | .str s => ⟨escapeString_safe s, fun l hl => absurd hl (List.not_mem_nil l)⟩
  | .arr .nil => ⟨(by decide : SafeL "[]".data), fun l hl => absurd hl (List.not_mem_nil l)⟩
  | .arr (.cons e es) => by
      have hb := blocksSafeI w (d + 1) (.cons e es)
      refine ⟨(by decide : SafeL ['[']), ?_⟩
      intro l hl
      rcases List.mem_append.1 hl with hl | hl
      · exact SafeB_blockJoin _ hb l hl
      · rw [List.mem_singleton] at hl
        subst hl
        exact SafeL_append _ _ (pad_safe _) (by intro c hc; rw [List.mem_singleton] at hc; subst hc; exact ⟨by decide, by decide⟩)
  | .obj .nil => ⟨(by decide : SafeL ['\x7b', '\x7d']), fun l hl => absurd hl (List.not_mem_nil l)⟩
  | .obj (.cons k v fs) => by
      have hb := blocksSafeF w (d + 1) (.cons k v fs)
      refine ⟨(by decide : SafeL ['\x7b']), ?_⟩
      intro l hl
      rcases List.mem_append.1 hl with hl | hl
      · exact SafeB_blockJoin _ hb l hl
      · rw [List.mem_singleton] at hl
        subst hl
        exact SafeL_append _ _ (pad_safe _) (by intro c hc; rw [List.mem_singleton] at hc; subst hc; exact ⟨by decide, by decide⟩)

theorem blocksSafeI (w d : Nat) : (its : JItems) → ∀ b ∈ JItems.blocks w d its, SafeB b
  | .nil => by intro b hb; simp [JItems.blocks] at hb
  | .cons e es => by
      intro b hb
      have hv := linesSafeV w d e
      rw [show JItems.blocks w d (.cons e es)
          = ((pad (d * w) ++ (JVal.lines w d e).1) :: (JVal.lines w d e).2) :: JItems.blocks w d es
          from rfl] at hb
      rcases List.mem_cons.1 hb with rfl | hb
      · intro l hl
        rcases List.mem_cons.1 hl with rfl | hl
        · exact SafeL_append _ _ (pad_safe _) hv.1
        · exact hv.2 l hl
      · exact blocksSafeI w d es b hb

theorem blocksSafeF (w d : Nat) : (fs : JFields) → ∀ b ∈ JFields.blocks w d fs, SafeB b
  | .nil => by intro b hb; simp [JFields.blocks] at hb
  | .cons k v fs => by
      intro b hb
      have hv := linesSafeV w d v
      rw [show JFields.blocks w d (.cons k v fs)
          = ((pad (d * w) ++ escapeString k ++ ':' :: ' ' :: (JVal.lines w d v).1) :: (JVal.lines w d v).2) :: JFields.blocks w d fs
          from rfl] at hb
      rcases List.mem_cons.1 hb with rfl | hb
      · intro l hl
        rcases List.mem_cons.1 hl with rfl | hl
        · refine SafeL_append _ _ (SafeL_append _ _ (pad_safe _) (escapeString_safe k)) ?_
          intro c hc
          rcases List.mem_cons.1 hc with rfl | hc
          · exact ⟨by decide, by decide⟩
          rcases List.mem_cons.1 hc with rfl | hc
          · exact ⟨by decide, by decide⟩
          · exact hv.1 c hc
        · exact hv.2 l hl
      · exact blocksSafeF w d fs b hb
end

theorem lines_fst_shape (w d : Nat) (v : JVal) :
    ∃ c t, (JVal.lines w d v).1 = c :: t ∧ isIndentChar c = false ∧ isJsWsChar c = false := by
  cases v with
  | null => exact ⟨'n', _, rfl, by decide, by decide⟩
  | bool b =>
    cases b with
    | false => exact ⟨'f', _, rfl, by decide, by decide⟩
    | true => exact ⟨'t', _, rfl, by decide, by decide⟩
  | num n =>
    obtain ⟨c, t, h, h1, h2⟩ := intChars_shape n
    exact ⟨c, t, h, h1, h2⟩
  | str s => exact ⟨'"', _, rfl, by decide, by decide⟩
  | arr its => cases its with
    | nil => exact ⟨'[', _, rfl, by decide, by decide⟩
    | cons e es => exact ⟨'[', _, rfl, by decide, by decide⟩
  | obj fs => cases fs with
    | nil => exact ⟨'\x7b', _, rfl, by decide, by decide⟩
    | cons k v fs' => exact ⟨'\x7b', _, rfl, by decide, by decide⟩

theorem blockJoin_head (l0 : List Char) (ls : List (List Char)) (Bs : List (List (List Char))) :
    ∃ x0 junk, blockJoin ((l0 :: ls) :: Bs) = x0 :: junk ∧ (x0 = l0 ∨ x0 = l0 ++ [',']) := by
  cases Bs with
  | nil => exact ⟨l0, ls, rfl, Or.inl rfl⟩
  | cons B2 Bs' =>
    cases ls with
    | nil =>
      exact ⟨l0 ++ [','], blockJoin (B2 :: Bs'),
        rfl, Or.inr rfl⟩
    | cons l1 ls' =>
      exact ⟨l0, lastLineComma (l1 :: ls') ++ blockJoin (B2 :: Bs'), rfl, Or.inl rfl⟩

theorem lines_top_shape (w : Nat) (p : JVal) (hp : topNonempty p = true) :
    ∃ flc x junk close,
      JVal.lines w 0 p = ([flc], ((pad w ++ x) :: junk) ++ [[close]]) ∧
      isIndentChar flc = false ∧ flc ≠ '\n' ∧ flc ≠ '\r' ∧
      (∃ xc xt, x = xc :: xt ∧ isIndentChar xc = false) ∧
      isJsWsChar close = false := by
  cases p with
  | null => simp [topNonempty] at hp
  | bool b => simp [topNonempty] at hp
  | num n => simp [topNonempty] at hp
  | str s => simp [topNonempty] at hp
  | arr its =>
    cases its with
    | nil => simp [topNonempty] at hp
    | cons e es =>
      obtain ⟨c, t, hfr, hcI, hcW⟩ := lines_fst_shape w 1 e
      obtain ⟨x0, junk0, hbj, hx0⟩ :=
        blockJoin_head (pad (1 * w) ++ (JVal.lines w 1 e).1) (JVal.lines w 1 e).2 (JItems.blocks w 1 es)
      have hL : JVal.lines w 0 (.arr (.cons e es))
          = (['['], blockJoin (((pad (1 * w) ++ (JVal.lines w 1 e).1) :: (JVal.lines w 1 e).2) :: JItems.blocks w 1 es) ++ [pad (0 * w) ++ [']']]) := rfl
      rw [hbj] at hL
      rcases hx0 with rfl | rfl
      · refine ⟨'[', (JVal.lines w 1 e).1, junk0, ']', ?_, by decide, by decide, by decide,
          ⟨c, t, hfr, hcI⟩, by decide⟩
        rw [hL]
        simp [Nat.one_mul, Nat.zero_mul, pad]
      · refine ⟨'[', (JVal.lines w 1 e).1 ++ [','], junk0, ']', ?_, by decide, by decide, by decide,
          ⟨c, t ++ [','], by rw [hfr]; rfl, hcI⟩, by decide⟩
        rw [hL]
        simp [Nat.one_mul, Nat.zero_mul, pad, List.append_assoc]
  | obj fs =>
    cases fs with
    | nil => simp [topNonempty] at hp
    | cons k v fs' =>
      obtain ⟨x0, junk0, hbj, hx0⟩ :=
        blockJoin_head (pad (1 * w) ++ escapeString k ++ ':' :: ' ' :: (JVal.lines w 1 v).1)
          (JVal.lines w 1 v).2 (JFields.blocks w 1 fs')
      have hL : JVal.lines w 0 (.obj (.cons k v fs'))
          = (['\x7b'], blockJoin (((pad (1 * w) ++ escapeString k ++ ':' :: ' ' :: (JVal.lines w 1 v).1) :: (JVal.lines w 1 v).2) :: JFields.blocks w 1 fs') ++ [pad (0 * w) ++ ['\x7d']]) := rfl
      rw [hbj] at hL
      rcases hx0 with rfl | rfl
      · refine ⟨'\x7b', escapeString k ++ ':' :: ' ' :: (JVal.lines w 1 v).1, junk0, '\x7d', ?_,
          by decide, by decide, by decide,
          ⟨'"', (k.data.flatMap escapeChar ++ ['"']) ++ ':' :: ' ' :: (JVal.lines w 1 v).1, rfl, by decide⟩,
          by decide⟩
        rw [hL]
        simp [Nat.one_mul, Nat.zero_mul, pad, List.append_assoc]
      · refine ⟨'\x7b', (escapeString k ++ ':' :: ' ' :: (JVal.lines w 1 v).1) ++ [','], junk0, '\x7d', ?_,
          by decide, by decide, by decide,
          ⟨'"', ((k.data.flatMap escapeChar ++ ['"']) ++ ':' :: ' ' :: (JVal.lines w 1 v).1) ++ [','], rfl, by decide⟩,
          by decide⟩
        rw [hL]
        simp [Nat.one_mul, Nat.zero_mul, pad, List.append_assoc]

theorem takeWhile_append_all (p : Char → Bool) (xs ys : List Char) (h : ∀ x ∈ xs, p x = true) :
    (xs ++ ys).takeWhile p = xs ++ ys.takeWhile p := by
  induction xs with
  | nil => rfl
  | cons a as ih =>
    rw [List.cons_append, List.takeWhile_cons, h a (List.mem_cons_self a as),
        ih (fun x hx => h x (List.mem_cons_of_mem a hx))]
    rfl

theorem leading_cons_zero (c : Char) (t : List Char) (hc : isIndentChar c = false) :
    leadingIndentCount (c :: t) = 0 := by
  unfold leadingIndentCount
  rw [List.takeWhile_cons, hc]
  rfl

theorem leading_pad_append (w : Nat) (c : Char) (t : List Char) (hc : isIndentChar c = false) :
    leadingIndentCount (pad w ++ c :: t) = w := by
  unfold leadingIndentCount pad
  rw [takeWhile_append_all _ _ _ (fun x hx => by rw [List.eq_of_mem_replicate hx]; rfl),
      List.takeWhile_cons, hc]
  simp

theorem splitNL_ne_nil : ∀ cs, splitNL cs ≠ []
  | [] => by simp [splitNL]
  | c :: rest => by
    unfold splitNL
    split
    · simp
    · split <;> simp

theorem headI_cons_tail (l : List (List Char)) (h : l ≠ []) : l = l.headI :: l.tail := by
  cases l with
  | nil => exact absurd rfl h
  | cons a as => rfl

theorem splitNL_lf (cs : List Char) : splitNL ('\n' :: cs) = [] :: splitNL cs := rfl

theorem splitNL_crlf (cs : List Char) : splitNL ('\r' :: '\n' :: cs) = ['\r'] :: splitNL cs := by
  rw [show splitNL ('\r' :: '\n' :: cs)
      = (if ('\r' : Char) = '\n' then [] :: splitNL ('\n' :: cs)
         else match splitNL ('\n' :: cs) with
              | [] => [['\r']]
              | l :: ls => ('\r' :: l) :: ls) from rfl,
      if_neg (by decide), splitNL_lf]

theorem splitNL_append_safe (xs cs : List Char) (hxs : ∀ c ∈ xs, c ≠ '\n') :
    splitNL (xs ++ cs) = (xs ++ (splitNL cs).headI) :: (splitNL cs).tail := by
  induction xs with
  | nil =>
    rw [List.nil_append, List.nil_append]
    exact headI_cons_tail _ (splitNL_ne_nil cs)
  | cons a as ih =>
    rw [List.cons_append,
        show splitNL (a :: (as ++ cs))
        = (if a = '\n' then [] :: splitNL (as ++ cs)
           else match splitNL (as ++ cs) with
                | [] => [[a]]
                | l :: ls => (a :: l) :: ls) from rfl,
        if_neg (hxs a (List.mem_cons_self a as)),
        ih (fun c hc => hxs c (List.mem_cons_of_mem a hc))]
    rfl

theorem replaceNL_append (a b nlc : List Char) :
    replaceNewlinesChars (a ++ b) nlc = replaceNewlinesChars a nlc ++ replaceNewlinesChars b nlc := by
  simp [replaceNewlinesChars]

theorem replaceNL_id (xs nlc : List Char) (h : ∀ c ∈ xs, c ≠ '\n') :
    replaceNewlinesChars xs nlc = xs := by
  induction xs with
  | nil => rfl
  | cons a as ih =>
    unfold replaceNewlinesChars
    rw [List.flatMap_cons, if_neg (h a (List.mem_cons_self a as))]
    rw [show as.flatMap (fun c => if c = '\n' then nlc else [c])
        = replaceNewlinesChars as nlc from rfl,
        ih (fun c hc => h c (List.mem_cons_of_mem a hc))]
    rfl

theorem replaceNL_flat (rest : List (List Char)) (nlc : List Char)
    (h : ∀ l ∈ rest, ∀ c ∈ l, c ≠ '\n') :
    replaceNewlinesChars (rest.flatMap (fun l => '\n' :: l)) nlc
      = rest.flatMap (fun l => nlc ++ l) := by
  induction rest with
  | nil => rfl
  | cons l ls ih =>
    rw [List.flatMap_cons, List.flatMap_cons, replaceNL_append,
        show replaceNewlinesChars ('\n' :: l) nlc = nlc ++ replaceNewlinesChars l nlc from by
          unfold replaceNewlinesChars
          rw [List.flatMap_cons, if_pos rfl],
        replaceNL_id l nlc (h l (List.mem_cons_self l ls)),
        ih (fun l' hl' => h l' (List.mem_cons_of_mem l hl'))]

theorem nlCounts_safe_cons (c : Char) (l : List Char) (h1 : c ≠ '\n') (h2 : c ≠ '\r') :
    nlCounts (c :: l) = nlCounts l := by
  cases l with
  | nil =>
    rw [show nlCounts [c] = (if c = '\n' then (0, 1) else (0, 0)) from rfl, if_neg h1]
    rfl
  | cons c2 rest =>
    rw [show nlCounts (c :: c2 :: rest)
        = (if c = '\r' && c2 = '\n' then ((nlCounts rest).1 + 1, (nlCounts rest).2)
           else if c = '\n' then ((nlCounts (c2 :: rest)).1, (nlCounts (c2 :: rest)).2 + 1)
           else nlCounts (c2 :: rest)) from rfl]
    rw [if_neg (by simp [h2]), if_neg h1]

theorem nlCounts_safe_append (xs ys : List Char) (h : SafeL xs) :
    nlCounts (xs ++ ys) = nlCounts ys := by
  induction xs with
  | nil => rfl
  | cons a as ih =>
    rw [List.cons_append,
        nlCounts_safe_cons a (as ++ ys) (h a (List.mem_cons_self a as)).1 (h a (List.mem_cons_self a as)).2,
        ih (fun c hc => h c (List.mem_cons_of_mem a hc))]

theorem nlCounts_lf_cons (l : List Char) :
    nlCounts ('\n' :: l) = ((nlCounts l).1, (nlCounts l).2 + 1) := by
  cases l with
  | nil => rfl
  | cons c2 rest =>
    rw [show nlCounts ('\n' :: c2 :: rest)
        = (if ('\n' : Char) = '\r' && c2 = '\n' then ((nlCounts rest).1 + 1, (nlCounts rest).2)
           else if ('\n' : Char) = '\n' then ((nlCounts (c2 :: rest)).1, (nlCounts (c2 :: rest)).2 + 1)
           else nlCounts (c2 :: rest)) from rfl]
    rw [if_neg (by simp), if_pos rfl]

theorem nlCounts_crlf_cons (l : List Char) :
    nlCounts ('\r' :: '\n' :: l) = ((nlCounts l).1 + 1, (nlCounts l).2) := by
  rw [show nlCounts ('\r' :: '\n' :: l)
      = (if ('\r' : Char) = '\r' && ('\n' : Char) = '\n' then ((nlCounts l).1 + 1, (nlCounts l).2)
         else if ('\r' : Char) = '\n' then ((nlCounts ('\n' :: l)).1, (nlCounts ('\n' :: l)).2 + 1)
         else nlCounts ('\n' :: l)) from rfl]
  rw [if_pos (by simp)]

theorem repChars_subset (nlc : List Char) (k : Nat) : ∀ c ∈ repChars nlc k, c ∈ nlc := by
  induction k with
  | zero => intro c hc; simp [repChars] at hc
  | succ m ih =>
    intro c hc
    unfold repChars at hc
    rcases List.mem_append.1 hc with h | h
    · exact h
    · exact ih c h

theorem nlCounts_rep_lf (k : Nat) : nlCounts (repChars ['\n'] k) = (0, k) := by
  induction k with
  | zero => rfl
  | succ m ih =>
    unfold repChars
    rw [show (['\n'] ++ repChars ['\n'] m) = '\n' :: repChars ['\n'] m from rfl,
        nlCounts_lf_cons, ih]

theorem nlCounts_rep_crlf (k : Nat) : nlCounts (repChars ['\r', '\n'] k) = (k, 0) := by
  induction k with
  | zero => rfl
  | succ m ih =>
    unfold repChars
    rw [show (['\r', '\n'] ++ repChars ['\r', '\n'] m) = '\r' :: '\n' :: repChars ['\r', '\n'] m from rfl,
        nlCounts_crlf_cons, ih]

theorem nlCounts_flat_lf (rest : List (List Char)) (h : ∀ l ∈ rest, SafeL l) (k : Nat) :
    nlCounts (rest.flatMap (fun l => "\n".data ++ l) ++ repChars "\n".data k)
      = (0, rest.length + k) := by
  induction rest with
  | nil =>
    rw [List.flatMap_nil, List.nil_append,
        show ("\n".data : List Char) = ['\n'] from rfl, nlCounts_rep_lf]
    simp
  | cons l ls ih =>
    rw [List.flatMap_cons, List.append_assoc,
        show ("\n".data ++ l : List Char) = '\n' :: l from rfl, List.cons_append,
        nlCounts_lf_cons,
        nlCounts_safe_append l _ (h l (List.mem_cons_self l ls)),
        ih (fun l' hl' => h l' (List.mem_cons_of_mem l hl'))]
    simp
    omega

theorem nlCounts_flat_crlf (rest : List (List Char)) (h : ∀ l ∈ rest, SafeL l) (k : Nat) :
    nlCounts (rest.flatMap (fun l => "\r\n".data ++ l) ++ repChars "\r\n".data k)
      = (rest.length + k, 0) := by
  induction rest with
  | nil =>
    rw [List.flatMap_nil, List.nil_append,
        show ("\r\n".data : List Char) = ['\r', '\n'] from rfl, nlCounts_rep_crlf]
    simp
  | cons l ls ih =>
    rw [List.flatMap_cons, List.append_assoc,
        show ("\r\n".data ++ l : List Char) = '\r' :: '\n' :: l from rfl, List.cons_append,
        List.cons_append, nlCounts_crlf_cons,
        nlCounts_safe_append l _ (h l (List.mem_cons_self l ls)),
        ih (fun l' hl' => h l' (List.mem_cons_of_mem l hl'))]
    simp
    omega

theorem detectNewline_eval (fl : List Char) (rest : List (List Char)) (nl : String) (k : Nat)
    (hfl : SafeL fl) (hrest : ∀ l ∈ rest, SafeL l) (hne : rest ≠ [])
    (hnl : nl = "\n" ∨ nl = "\r\n") :
    detectNewlineModel (String.mk (replaceNewlinesChars (fl ++ rest.flatMap (fun l => '\n' :: l)) nl.data ++ repChars nl.data k)) = some nl := by
  have hx : replaceNewlinesChars (fl ++ rest.flatMap (fun l => '\n' :: l)) nl.data
      = fl ++ rest.flatMap (fun l => nl.data ++ l) := by
    rw [replaceNL_append, replaceNL_id fl _ (fun c hc => (hfl c hc).1),
        replaceNL_flat rest _ (fun l hl c hc => (hrest l hl c hc).1)]
  rw [hx]
  unfold detectNewlineModel
  rw [show (String.mk (fl ++ rest.flatMap (fun l => nl.data ++ l) ++ repChars nl.data k)).data
      = fl ++ rest.flatMap (fun l => nl.data ++ l) ++ repChars nl.data k from rfl,
      List.append_assoc, nlCounts_safe_append fl _ hfl]
  have hlen : 0 < rest.length := List.length_pos.2 hne
  rcases hnl with rfl | rfl
  · rw [nlCounts_flat_lf rest hrest k]
    show (if (0 : Nat) + (rest.length + k) = 0 then none
          else if 0 > rest.length + k then some "\r\n" else some "\n") = some "\n"
    rw [if_neg (by omega), if_neg (by omega)]
  · rw [nlCounts_flat_crlf rest hrest k]
    show (if (rest.length + k) + 0 = 0 then none
          else if rest.length + k > 0 then some "\r\n" else some "\n") = some "\r\n"
    rw [if_neg (by omega), if_pos (by omega)]

theorem firstIndentAmount_cons (l : List Char) (t : List (List Char)) :
    firstIndentAmount (l :: t)
      = if leadingIndentCount l > 0 then leadingIndentCount l else firstIndentAmount t := rfl

theorem firstIndent_of_shape (l0 : List Char) (w : Nat) (xc : Char) (z : List Char)
    (t : List (List Char))
    (h0 : leadingIndentCount l0 = 0) (hxc : isIndentChar xc = false) (hw : 0 < w) :
    firstIndentAmount (l0 :: ((pad w ++ [xc]) ++ z) :: t) = w := by
  have h1 : leadingIndentCount ((pad w ++ [xc]) ++ z) = w := by
    rw [List.append_assoc, show ([xc] ++ z : List Char) = xc :: z from rfl]
    exact leading_pad_append w xc z hxc
  rw [firstIndentAmount_cons, h0, if_neg (by omega), firstIndentAmount_cons, h1, if_pos (by omega)]

theorem detectIndent_eval (flc : Char) (x : List Char) (junk2 : List (List Char)) (w k : Nat)
    (nl : String)
    (hflcI : isIndentChar flc = false) (hflcN : flc ≠ '\n')
    (hxshape : ∃ xc xt, x = xc :: xt ∧ isIndentChar xc = false)
    (hxs : SafeL (pad w ++ x)) (hjunk : ∀ l ∈ junk2, SafeL l)
    (hw : 0 < w)
    (hnl : nl = "\n" ∨ nl = "\r\n") :
    detectIndentModel (String.mk (replaceNewlinesChars ([flc] ++ ((pad w ++ x) :: junk2).flatMap (fun l => '\n' :: l)) nl.data ++ repChars nl.data k)) = w := by
  obtain ⟨xc, xt, rfl, hxc⟩ := hxshape
  have hxcn : xc ≠ '\n' :=
    (hxs xc (List.mem_append.2 (Or.inr (List.mem_cons_self xc xt)))).1
  have hx : replaceNewlinesChars ([flc] ++ ((pad w ++ xc :: xt) :: junk2).flatMap (fun l => '\n' :: l)) nl.data
      = [flc] ++ ((pad w ++ xc :: xt) :: junk2).flatMap (fun l => nl.data ++ l) := by
    rw [replaceNL_append, replaceNL_id [flc] _ (by intro c hc; rw [List.mem_singleton] at hc; subst hc; exact hflcN)]
    rw [replaceNL_flat _ _ ?_]
    intro l hl c hc
    rcases List.mem_cons.1 hl with rfl | hl
    · exact (hxs c hc).1
    · exact (hjunk l hl c hc).1
  rw [hx]
  unfold detectIndentModel
  rw [show (String.mk ([flc] ++ ((pad w ++ xc :: xt) :: junk2).flatMap (fun l => nl.data ++ l) ++ repChars nl.data k)).data
      = [flc] ++ ((pad w ++ xc :: xt) :: junk2).flatMap (fun l => nl.data ++ l) ++ repChars nl.data k from rfl]
  have hsplit0 : ∀ z : List Char, splitNL ([flc] ++ z) = ([flc] ++ (splitNL z).headI) :: (splitNL z).tail :=
    fun z => splitNL_append_safe [flc] z
      (by intro c hc; rw [List.mem_singleton] at hc; subst hc; exact hflcN)
  have hsafe01 : ∀ c ∈ pad w ++ [xc], c ≠ '\n' := by
    intro c hc
    rcases List.mem_append.1 hc with hc | hc
    · rw [List.eq_of_mem_replicate hc]; decide
    · rw [List.mem_singleton] at hc; subst hc; exact hxcn
  rcases hnl with rfl | rfl
  · rw [show ("\n".data : List Char) = ['\n'] from rfl]
    rw [show ([flc] ++ ((pad w ++ xc :: xt) :: junk2).flatMap (fun l => ['\n'] ++ l) ++ repChars ['\n'] k)
        = [flc] ++ ('\n' :: ((pad w ++ [xc]) ++ (xt ++ (junk2.flatMap (fun l => ['\n'] ++ l) ++ repChars ['\n'] k)))) from by
      rw [List.flatMap_cons]
      simp [List.append_assoc]]
    rw [hsplit0, splitNL_lf,
        splitNL_append_safe (pad w ++ [xc]) _ hsafe01]
    simp only [List.headI_cons, List.tail_cons, List.append_nil]
    exact firstIndent_of_shape [flc] w xc _ _ (leading_cons_zero flc [] hflcI) hxc hw
  · rw [show ("\r\n".data : List Char) = ['\r', '\n'] from rfl]
    rw [show ([flc] ++ ((pad w ++ xc :: xt) :: junk2).flatMap (fun l => ['\r', '\n'] ++ l) ++ repChars ['\r', '\n'] k)
        = [flc] ++ ('\r' :: '\n' :: ((pad w ++ [xc]) ++ (xt ++ (junk2.flatMap (fun l => ['\r', '\n'] ++ l) ++ repChars ['\r', '\n'] k)))) from by
      rw [List.flatMap_cons]
      simp [List.append_assoc]]
    rw [hsplit0, splitNL_crlf,
        splitNL_append_safe (pad w ++ [xc]) _ hsafe01]
    simp only [List.headI_cons, List.tail_cons]
    exact firstIndent_of_shape ([flc] ++ ['\r']) w xc _ _ (leading_cons_zero flc ['\r'] hflcI) hxc hw

theorem detectTrailing_eval (A : List Char) (close : Char) (nlc : List Char) (k : Nat)
    (hclose : isJsWsChar close = false) (hnlc : ∀ c ∈ nlc, isJsWsChar c = true) :
    detectTrailingWs (String.mk ((A ++ [close]) ++ repChars nlc k)) = String.mk (repChars nlc k) := by
  unfold detectTrailingWs
  rw [show (String.mk ((A ++ [close]) ++ repChars nlc k)).data = (A ++ [close]) ++ repChars nlc k from rfl]
  rw [List.reverse_append, List.reverse_append]
  rw [show ([close].reverse : List Char) = [close] from rfl]
  rw [show (([close] ++ A.reverse : List Char)) = close :: A.reverse from rfl]
  rw [takeWhile_append_all _ _ _
      (fun c hc => hnlc c (repChars_subset nlc k c (List.mem_reverse.1 hc)))]
  rw [show (close :: A.reverse).takeWhile isJsWsChar = [] from by
      rw [List.takeWhile_cons, hclose]; rfl]
  simp

/-! ## C3: manifest round-trip -/

/-- C3 counterexample: a tab-indented manifest (indent style the claim
includes as tab-equivalent) does not round-trip: the detected indent
amount is 1 (one tab), which write() hands to JSON.stringify as one
space, so the written bytes replace the tab with a space. -/
theorem c3_counterexample :
    JSONFile.write (JSONFile.load "\x7b\n\t\"a\": 1\n\x7d" (.obj (.cons "a" (.num 1) .nil)))
      = "\x7b\n \"a\": 1\n\x7d" ∧
    JSONFile.write (JSONFile.load "\x7b\n\t\"a\": 1\n\x7d" (.obj (.cons "a" (.num 1) .nil)))
      ≠ "\x7b\n\t\"a\": 1\n\x7d" := by
  decide

/-- C3 amended: for manifests in canonical JSON.stringify form — a
nonempty top-level object or array, space indentation of width 2 or 4,
line endings \n or \r\n, and trailing whitespace of k repetitions of
the line ending (none, one newline, or several blank lines) — loading
and writing without mutation reproduces the bytes exactly.  For
tab-indented manifests the detected amount is re-emitted as spaces, so
the bytes differ (see the counterexample). -/
theorem c3_roundtrip_amended (p : JVal) (w : Nat) (nl : String) (k : Nat)
    (hp : topNonempty p = true) (hw : w = 2 ∨ w = 4) (hnl : nl = "\n" ∨ nl = "\r\n") :
    JSONFile.write (JSONFile.load (renderManifest p w nl k) p) = renderManifest p w nl k := by
  have hw0 : ¬ (w = 0) := by rcases hw with rfl | rfl <;> decide
  have hwmin : min w 10 = w := by rcases hw with rfl | rfl <;> decide
  obtain ⟨flc, x, junk, close, hL, hflcI, hflcN, hflcR, hxshape, hclose⟩ := lines_top_shape w p hp
  have hsafe := linesSafeV w 0 p
  rw [hL] at hsafe
  have hsafeFl : SafeL [flc] := hsafe.1
  have hsafeRest : SafeB (((pad w ++ x) :: junk) ++ [[close]]) := hsafe.2
  have hsafeX : SafeL (pad w ++ x) :=
    hsafeRest _ (List.mem_append.2 (Or.inl (List.mem_cons_self _ _)))
  have hjunk2 : ∀ l ∈ junk ++ [[close]], SafeL l := by
    intro l hl
    apply hsafeRest
    rcases List.mem_append.1 hl with h | h
    · exact List.mem_append.2 (Or.inl (List.mem_cons_of_mem _ h))
    · exact List.mem_append.2 (Or.inr h)
  have hst : (stringifyTop w p).data
      = [flc] ++ (((pad w ++ x) :: junk) ++ [[close]]).flatMap (fun l => '\n' :: l) := by
    unfold stringifyTop
    rw [if_neg hw0, hwmin, hL]
    rfl
  have hR : renderManifest p w nl k
      = String.mk (replaceNewlinesChars ([flc] ++ (((pad w ++ x) :: junk) ++ [[close]]).flatMap (fun l => '\n' :: l)) nl.data ++ repChars nl.data k) := by
    unfold renderManifest
    rw [hst]
  have hNL : detectNewlineModel (renderManifest p w nl k) = some nl := by
    rw [hR]
    exact detectNewline_eval [flc] _ nl k hsafeFl hsafeRest (by simp) hnl
  have hIN : detectIndentModel (renderManifest p w nl k) = w := by
    rw [hR]
    exact detectIndent_eval flc x (junk ++ [[close]]) w k nl hflcI hflcN hxshape hsafeX hjunk2
      (by rcases hw with rfl | rfl <;> decide) hnl
  have hTR : detectTrailingWs (renderManifest p w nl k) = String.mk (repChars nl.data k) := by
    rw [hR]
    have hshape : replaceNewlinesChars ([flc] ++ (((pad w ++ x) :: junk) ++ [[close]]).flatMap (fun l => '\n' :: l)) nl.data
        = (([flc] ++ ((pad w ++ x) :: junk).flatMap (fun l => nl.data ++ l) ++ nl.data) ++ [close]) := by
      rw [replaceNL_append, replaceNL_id [flc] _ (fun c hc => (hsafeFl c hc).1),
          replaceNL_flat _ _ (fun l hl c hc => (hsafeRest l hl c hc).1)]
      rw [List.flatMap_append]
      simp [List.append_assoc]
    rw [hshape]
    exact detectTrailing_eval _ close nl.data k hclose
      (by rcases hnl with rfl | rfl <;> decide)
  unfold JSONFile.write JSONFile.load
  rw [hNL, hIN, hTR]
  rfl

/-- Witness for C3 amended at a one-member object, indent 2, newline
line endings, one trailing newline. -/
theorem c3_witness :
    JSONFile.write (JSONFile.load (renderManifest (.obj (.cons "a" (.num 1) .nil)) 2 "\n" 1)
      (.obj (.cons "a" (.num 1) .nil)))
      = renderManifest (.obj (.cons "a" (.num 1) .nil)) 2 "\n" 1 :=
  c3_roundtrip_amended (.obj (.cons "a" (.num 1) .nil)) 2 "\n" 1 (by decide)
    (Or.inl rfl) (Or.inl rfl)

/-! ## C6: parseVersion on the three specified inputs -/

/-- C6: parseVersion of the empty string yields no version, not a
pre-release, no pre-release id; of 2.0.0-beta.1 yields a pre-release
with id beta; of 2.0.0-2 yields a pre-release whose preReleaseId is
null because the first pre-release component is numeric. -/
theorem c6_parseVersion :
    parseVersion "" = some ⟨none, false, none⟩ ∧
    parseVersion "2.0.0-beta.1" = some ⟨some "2.0.0-beta.1", true, some "beta"⟩ ∧
    parseVersion "2.0.0-2" = some ⟨some "2.0.0-2", true, none⟩ := by
  decide

/-! ## C5: dependency rewriting on the three specified shapes -/

/-- C5: for every new version v, rewriting the exact specifier 1.2.3
returns v bare, rewriting the range specifier ^1.2.3 preserves the
caret, and rewriting the non-coercible specifier workspace:* returns v
bare.  The transform is a pure function of its two arguments by
construction. -/
theorem c5_buildReplacement (v : String) :
    buildReplacementDepencencyVersion "1.2.3" v = v ∧
    buildReplacementDepencencyVersion "^1.2.3" v = "^" ++ v ∧
    buildReplacementDepencencyVersion "workspace:*" v = v := by
  obtain ⟨l⟩ := v
  refine ⟨?_, ?_, ?_⟩
  · rw [show buildReplacementDepencencyVersion "1.2.3" ⟨l⟩ =
        (match semverParse "1.2.3" with
         | some _ => String.mk l
         | none =>
           match coerce "1.2.3" with
           | some sv => jsReplaceFirst "1.2.3" (String.mk (tripleChars sv.major sv.minor sv.patch)) ⟨l⟩
           | none => String.mk l) from rfl]
    rw [show semverParse "1.2.3" = some ⟨1, 2, 3, []⟩ from by decide]
  · rw [show buildReplacementDepencencyVersion "^1.2.3" ⟨l⟩ =
        (match semverParse "^1.2.3" with
         | some _ => String.mk l
         | none =>
           match coerce "^1.2.3" with
           | some sv => jsReplaceFirst "^1.2.3" (String.mk (tripleChars sv.major sv.minor sv.patch)) ⟨l⟩
           | none => String.mk l) from rfl]
    rw [show semverParse "^1.2.3" = none from by decide,
        show coerce "^1.2.3" = some ⟨1, 2, 3, []⟩ from by decide]
    show jsReplaceFirst "^1.2.3" (String.mk (tripleChars 1 2 3)) ⟨l⟩ = "^" ++ ⟨l⟩
    rw [show (String.mk (tripleChars 1 2 3)) = "1.2.3" from by decide]
    show (match firstOccurSplit "^1.2.3".data "1.2.3".data with
          | none => "^1.2.3"
          | some pr => String.mk (pr.1 ++ l ++ pr.2)) = "^" ++ ⟨l⟩
    rw [show firstOccurSplit "^1.2.3".data "1.2.3".data = some (['^'], []) from by decide]
    show String.mk (['^'] ++ l ++ []) = "^" ++ ⟨l⟩
    rw [List.append_nil]
    rfl
  · rw [show buildReplacementDepencencyVersion "workspace:*" ⟨l⟩ =
        (match semverParse "workspace:*" with
         | some _ => String.mk l
         | none =>
           match coerce "workspace:*" with
           | some sv => jsReplaceFirst "workspace:*" (String.mk (tripleChars sv.major sv.minor sv.patch)) ⟨l⟩
           | none => String.mk l) from rfl]
    rw [show semverParse "workspace:*" = none from by decide,
        show coerce "workspace:*" = none from by decide]

/-! ## C10: coercible specifier whose canonical form is not a substring -/

/-- C10: when the existing specifier is not an exact semver, coerces,
and the coerced canonical M.m.p rendering does not occur inside the
specifier, the replacement is a no-op and the original specifier is
returned unchanged (the new version does not appear at all). -/
theorem c10_replacement_noop (s v : String) (sv : SemVer)
    (h1 : semverParse s = none) (h2 : coerce s = some sv)
    (h3 : firstOccurSplit s.data (tripleChars sv.major sv.minor sv.patch) = none) :
    buildReplacementDepencencyVersion s v = s := by
  have h4 : buildReplacementDepencencyVersion s v =
      jsReplaceFirst s (String.mk (tripleChars sv.major sv.minor sv.patch)) v := by
    unfold buildReplacementDepencencyVersion
    rw [h1, h2]
  rw [h4]
  unfold jsReplaceFirst
  show (match firstOccurSplit s.data (tripleChars sv.major sv.minor sv.patch) with
        | none => s
        | some pr => String.mk (pr.1 ++ v.data ++ pr.2)) = s
  rw [h3]

/-- Witness for C10 at the specifier ^1.2: coercion yields 1.2.0, which
is not a substring of ^1.2, so rewriting to 2.0.0 returns ^1.2. -/
theorem c10_witness : buildReplacementDepencencyVersion "^1.2" "2.0.0" = "^1.2" :=
  c10_replacement_noop "^1.2" "2.0.0" ⟨1, 2, 0, []⟩ (by decide) (by decide) (by decide)

/-! ## C1: distribution-tag resolution -/

/-- C1 counterexample: for the pre-release version 1.0.0-2 (numeric-only
pre-release identifier) and no configured distTag, bump resolves the
tag to null, not to the default tag latest as the claim states. -/
theorem c1_counterexample :
    resolveDistTag "1.0.0-2" none = some none ∧
    resolveDistTag "1.0.0-2" none ≠ some (some DEFAULT_TAG) := by
  decide

/-- C1 amended: an explicit (truthy) distTag option always wins; when
the option is falsy and the version is a valid semver, the tag is
latest for a non-pre-release, the first pre-release identifier when it
is non-numeric (isNaN), and null — not latest — when the first
pre-release identifier is numeric. -/
theorem c1_distTag_amended (v : String) (o : Option String) (sv : SemVer) :
    (jsTruthy o = true → resolveDistTag v o = some o) ∧
    (jsTruthy o = false → semverParse v = some sv →
      resolveDistTag v o =
        some (match sv.prerelease with
              | [] => some DEFAULT_TAG
              | id :: _ => if isNaNPreId id then some (preIdString id) else none)) := by
  constructor
  · intro h
    unfold resolveDistTag
    rw [h]
    simp
  · intro ho hv
    obtain ⟨ma, mi, pa, pre⟩ := sv
    have hne : v ≠ "" := by
      intro h
      rw [h, show semverParse "" = none from by decide] at hv
      cases hv
    have hpv : parseVersion v =
        some ⟨some v, !pre.isEmpty,
          match pre.head? with
          | some id => if (!pre.isEmpty) && isNaNPreId id then some (preIdString id) else none
          | none => none⟩ := by
      unfold parseVersion
      rw [if_neg hne, hv]
      cases pre with
      | nil => rfl
      | cons id rest => rfl
    unfold resolveDistTag
    rw [ho, hpv]
    cases pre with
    | nil => rfl
    | cons id rest => simp

/-- Witness for C1 amended: with no option, 1.0.0-beta.1 resolves to
the tag beta (and, through the first conjunct, an explicit option next
is returned as-is). -/
theorem c1_witness : resolveDistTag "1.0.0-beta.1" none = some (some "beta") := by
  have h := (c1_distTag_amended "1.0.0-beta.1" none ⟨1, 0, 0, [.str "beta", .num 1]⟩).2
    (by decide) (by decide)
  exact h.trans (by decide)

/-! ## C7: workspace-configuration resolution -/

/-- C7 counterexample: a non-null object that lacks a packages field
does not fail with the workspaces-not-configured error as the claim
states; the call succeeds and returns undefined. -/
theorem c7_counterexample :
    resolveWorkspaces (.obj []) = .ok .undefined ∧
    resolveThrew (resolveWorkspaces (.obj [])) = false :=
  ⟨rfl, rfl⟩

/-- C7 amended: an array is returned as-is; any non-null object yields
its packages field (undefined when absent, not an error); the
workspaces-not-configured error is thrown exactly for values that are
neither arrays nor non-null objects. -/
theorem c7_resolveWorkspaces_amended :
    (∀ xs, resolveWorkspaces (.arr xs) = .ok (.arr xs)) ∧
    (∀ fs, resolveWorkspaces (.obj fs) = .ok (jsField fs "packages")) ∧
    (∀ w, resolveThrew (resolveWorkspaces w) = !isArrOrObj w) := by
  refine ⟨fun xs => rfl, fun fs => rfl, fun w => ?_⟩
  cases w <;> rfl

/-! ## C4: end-to-end bump of two workspaces -/

/-- C4: with workspaces a at 1.0.0 and b at 1.0.0 where b depends on a
at caret 1.0.0, a non-dry-run bump to 2.0.0 persists a at 2.0.0 and b
at 2.0.0 with its dependency on a rewritten to caret 2.0.0, and emits
no warnings. -/
theorem c4_end_to_end :
    bumpTask false "2.0.0"
      [⟨"a", "1.0.0", none, none, none, none⟩,
       ⟨"b", "1.0.0", some [("a", "^1.0.0")], none, none, none⟩] =
    ⟨[⟨"a", "2.0.0", none, none, none, none⟩,
      ⟨"b", "2.0.0", some [("a", "^2.0.0")], none, none, none⟩], []⟩ := by
  decide

/-! ## C8: bump idempotence -/

/-- C8: for every workspace already at the target version, a
non-dry-run bump emits the non-fatal already-at warning, still persists
that workspace's manifest with the version field set to the target and
the dependency maps rewritten against all workspace names. -/
theorem c8_bump_idempotent (version : String) (ws : List Pkg) (p : Pkg)
    (hp : p ∈ ws) (hv : p.version = version) :
    warnAlreadyAt version ∈ (bumpTask false version ws).warnings ∧
    bumpPkg (ws.map Pkg.name) version p ∈ (bumpTask false version ws).written ∧
    (bumpPkg (ws.map Pkg.name) version p).version = version := by
  refine ⟨?_, ?_, rfl⟩
  · simp only [bumpTask, if_neg (by decide : ¬ (false = true)), List.mem_filterMap]
    exact ⟨p, hp, by simp [hv]⟩
  · simp only [bumpTask, if_neg (by decide : ¬ (false = true)), List.mem_map]
    exact ⟨p, hp, rfl⟩

/-- Witness for C8: one workspace a already at 1.0.0 with a
self-referential dependency entry; bumping to 1.0.0 warns and persists. -/
theorem c8_witness :
    warnAlreadyAt "1.0.0" ∈
      (bumpTask false "1.0.0" [⟨"a", "1.0.0", some [("a", "1.0.0")], none, none, none⟩]).warnings ∧
    bumpPkg ["a"] "1.0.0" ⟨"a", "1.0.0", some [("a", "1.0.0")], none, none, none⟩ ∈
      (bumpTask false "1.0.0" [⟨"a", "1.0.0", some [("a", "1.0.0")], none, none, none⟩]).written ∧
    (bumpPkg ["a"] "1.0.0" ⟨"a", "1.0.0", some [("a", "1.0.0")], none, none, none⟩).version = "1.0.0" :=
  c8_bump_idempotent "1.0.0" [⟨"a", "1.0.0", some [("a", "1.0.0")], none, none, none⟩]
    ⟨"a", "1.0.0", some [("a", "1.0.0")], none, none, none⟩ (by simp) rfl

/-! ## C9: working-directory restoration in eachWorkspace -/

/-- C9: the working directories the actions observe are exactly the
workspace roots in iteration order (a prefix of them when an action
fails and stops the loop), and after eachWorkspace returns — also when
an action failed and its error is being propagated — the working
directory is back at the original run root. -/
theorem c9_eachWorkspace_cwd (rootDir : String)
    (action : Workspace → String → Except String Unit) (ws : List Workspace) :
    (∃ t, (eachWorkspace rootDir action ws).1 ++ t = ws.map Workspace.root) ∧
    (eachWorkspace rootDir action ws).2.1 = rootDir := by
  unfold eachWorkspace
  induction ws with
  | nil => exact ⟨⟨[], rfl⟩, rfl⟩
  | cons w rest ih =>
    obtain ⟨⟨t, ht⟩, hfin⟩ := ih
    rw [show eachWorkspaceGo rootDir action (w :: rest) rootDir =
        (match action w w.root with
         | .ok _ => (w.root :: (eachWorkspaceGo rootDir action rest rootDir).1,
                     (eachWorkspaceGo rootDir action rest rootDir).2)
         | .error e => ([w.root], rootDir, some e)) from rfl]
    cases action w w.root with
    | ok _ => exact ⟨⟨t, by simp [ht]⟩, hfin⟩
    | error e => exact ⟨⟨rest.map Workspace.root, rfl⟩, rfl⟩

/-! ## C2: publish after declining the publish-as-public prompt -/

/-- C2 (code behaviour at the failing input): a scoped, non-private
workspace whose publish fails with a private-packages error and whose
publish-as-public prompt is answered no ends with the
was-not-published warning emitted and the original error thrown —
the source reaches the trailing throw err after the warning, so the
error does propagate, contradicting the claim and the spec. -/
theorem c2_publish_throws :
    publish
      ⟨fun _ _ _ => .error "npm ERR! You must sign up for private packages",
       fun _ => "", fun _ => false⟩
      2 "latest" ⟨"@scope/pkg", false, false⟩ none ⟨none, false, [], 0, 0⟩ =
    (⟨none, false, ["@scope/pkg was not published."], 0, 1⟩,
     .thrown "npm ERR! You must sign up for private packages") := by
  decide

end RIYW
